import Mathlib

/-!
Verification development for the `dashboardassets` embedded-asset bootstrap:
`Ensure`, the marker file reader/writer (`loadReportAssetVersionFile`,
`updateAssetVersionFile`, `installedAsstesMatchAppVersion`) and the archive
installer (`extractTarGz`), shallowly embedded over an explicit filesystem
state.  JSON marshalling of the marker struct is modelled character by
character after Go's `encoding/json` (HTML-escaping encoder; the decoder is
restricted to objects whose values are strings, the only shapes the marker
file can carry).
-/

/-- The persisted marker struct `ReportAssetsVersionFile { Version string }`
with JSON field tag `version`. -/
structure ReportAssetsVersionFile where
  version : String
deriving DecidableEq

/-- Lowercase hexadecimal digit, as used by Go's JSON encoder. -/
def hexDigitChar (n : Nat) : Char :=
  if n < 10 then Char.ofNat (48 + n) else Char.ofNat (87 + n)

/-- Escape one character the way Go's `json.Marshal` does (HTML escaping on):
quote, backslash, newline/carriage-return/tab get two-character escapes;
other control characters and the HTML-sensitive characters get u-escapes;
U+2028 and U+2029 get u-escapes; everything else is emitted raw. -/
def jsonEscapeChar (c : Char) : List Char :=
  if c = '"' then ['\\', '"']
  else if c = '\\' then ['\\', '\\']
  else if c = '\n' then ['\\', 'n']
  else if c = '\r' then ['\\', 'r']
  else if c = '\t' then ['\\', 't']
  else if c = '<' ∨ c = '>' ∨ c = '&' then
    ['\\', 'u', '0', '0', hexDigitChar (c.toNat / 16), hexDigitChar (c.toNat % 16)]
  else if c.toNat < 32 then
    ['\\', 'u', '0', '0', hexDigitChar (c.toNat / 16), hexDigitChar (c.toNat % 16)]
  else if c.toNat = 8232 then ['\\', 'u', '2', '0', '2', '8']
  else if c.toNat = 8233 then ['\\', 'u', '2', '0', '2', '9']
  else [c]

/-- Escape a whole character sequence. -/
def escapeChars : List Char → List Char
  | [] => []
  | c :: cs => jsonEscapeChar c ++ escapeChars cs

/-- JSON string literal for `s`: quote, escaped body, quote. -/
def encodeJSONString (s : String) : String :=
  String.mk ('"' :: escapeChars s.data ++ ['"'])

/-- Output of `json.Marshal` on `ReportAssetsVersionFile`:
`\x7b"version":<encoded string>\x7d`. -/
def marshalVersionFile (vf : ReportAssetsVersionFile) : String :=
  "\x7b\"version\":" ++ encodeJSONString vf.version ++ "\x7d"

/-- Value of one hexadecimal digit character, if it is one. -/
def parseHexDigit (c : Char) : Option Nat :=
  if 48 ≤ c.toNat ∧ c.toNat ≤ 57 then some (c.toNat - 48)
  else if 97 ≤ c.toNat ∧ c.toNat ≤ 102 then some (c.toNat - 87)
  else if 65 ≤ c.toNat ∧ c.toNat ≤ 70 then some (c.toNat - 55)
  else none

/-- Prepend a decoded character to a string-body parse result. -/
def withChar (c : Char) (r : Option (List Char × List Char)) :
    Option (List Char × List Char) :=
  match r with
  | none => none
  | some (out, rest) => some (c :: out, rest)

/-- Decode one `\uXXXX` escape given its four digit characters and the input
following them, combining a valid surrogate pair (and consuming the second
escape) and turning a lone surrogate into U+FFFD, as Go's `encoding/json`
string decoder does.  Returns the decoded character and the remaining
input. -/
def decodeU (d1 d2 d3 d4 : Char) (cs3 : List Char) : Option (Char × List Char) :=
  match parseHexDigit d1, parseHexDigit d2, parseHexDigit d3, parseHexDigit d4 with
  | some a, some b, some c1, some d =>
    let n := ((a * 16 + b) * 16 + c1) * 16 + d
    if 55296 ≤ n ∧ n < 56320 then
      match cs3 with
      | e2 :: u2 :: g1 :: g2 :: g3 :: g4 :: cs4 =>
        if e2 = '\\' ∧ u2 = 'u' then
          match parseHexDigit g1, parseHexDigit g2, parseHexDigit g3, parseHexDigit g4 with
          | some a2, some b2, some c2, some d2 =>
            let m := ((a2 * 16 + b2) * 16 + c2) * 16 + d2
            if 56320 ≤ m ∧ m < 57344 then
              some (Char.ofNat (65536 + (n - 55296) * 1024 + (m - 56320)), cs4)
            else some (Char.ofNat 65533, cs3)
          | _, _, _, _ => some (Char.ofNat 65533, cs3)
        else some (Char.ofNat 65533, cs3)
      | _ => some (Char.ofNat 65533, cs3)
    else if 56320 ≤ n ∧ n < 57344 then some (Char.ofNat 65533, cs3)
    else some (Char.ofNat n, cs3)
  | _, _, _, _ => none

/-- Decode one escape sequence (the leading backslash already consumed):
the short escapes decode to their character, `\uXXXX` goes through
`decodeU`, anything else is invalid.  Returns the decoded character and the
remaining input. -/
def escStep : List Char → Option (Char × List Char)
  | [] => none
  | e :: cs2 =>
    if e = 'n' then some ('\n', cs2)
    else if e = 'r' then some ('\r', cs2)
    else if e = 't' then some ('\t', cs2)
    else if e = 'b' then some (Char.ofNat 8, cs2)
    else if e = 'f' then some (Char.ofNat 12, cs2)
    else if e = '/' ∨ e = '"' ∨ e = '\\' then some (e, cs2)
    else if e = 'u' then
      match cs2 with
      | d1 :: d2 :: d3 :: d4 :: cs3 => decodeU d1 d2 d3 d4 cs3
      | _ => none
    else none

/-- Parse the body of a JSON string literal (the opening quote already
consumed), returning the decoded characters and the input after the closing
quote.  Follows Go's `encoding/json` string decoding: escapes via `escStep`,
rejection of raw control characters, and failure at end of input.  The `fuel`
argument only bounds the recursion; callers pass at least the input length
plus one, which a successful parse never exhausts since every step consumes
at least one input character. -/
def parseStringBody : Nat → List Char → Option (List Char × List Char)
  | 0, _ => none
  | _, [] => none
  | fuel + 1, c :: cs =>
    if c = '"' then some ([], cs)
    else if c = '\\' then
      match escStep cs with
      | none => none
      | some (ch, cs2) => withChar ch (parseStringBody fuel cs2)
    else if c.toNat < 32 then none
    else withChar c (parseStringBody fuel cs)

/-- Skip JSON whitespace. -/
def skipSpace : List Char → List Char
  | [] => []
  | c :: cs => if c = ' ' ∨ c = '\t' ∨ c = '\n' ∨ c = '\r' then skipSpace cs else c :: cs

/-- Parse the members of a JSON object (input positioned at the first member),
restricted to string-valued members — the only shapes the marker file carries.
Returns the members and the input after the closing brace. -/
def parseMembers : Nat → List Char → Option (List (List Char × List Char) × List Char)
  | 0, _ => none
  | fuel + 1, cs =>
    match skipSpace cs with
    | [] => none
    | q :: cs1 =>
      if q = '"' then
        match parseStringBody (cs1.length + 1) cs1 with
        | none => none
        | some (key, cs2) =>
          match skipSpace cs2 with
          | [] => none
          | colon :: cs3 =>
            if colon = ':' then
              match skipSpace cs3 with
              | [] => none
              | q2 :: cs4 =>
                if q2 = '"' then
                  match parseStringBody (cs4.length + 1) cs4 with
                  | none => none
                  | some (val, cs5) =>
                    match skipSpace cs5 with
                    | [] => none
                    | sep :: cs6 =>
                      if sep = ',' then
                        match parseMembers fuel cs6 with
                        | none => none
                        | some (fields, rest) => some ((key, val) :: fields, rest)
                      else if sep = Char.ofNat 125 then some ([(key, val)], cs6)
                      else none
                else none
            else none
      else none

/-- Value of the `version` member: Go's `json.Unmarshal` keeps the last
occurrence of a duplicated key. -/
def versionField (fields : List (List Char × List Char)) : String :=
  fields.foldl (fun acc kv => if String.mk kv.1 = "version" then String.mk kv.2 else acc) ""

/-- Model of `json.Unmarshal` into `ReportAssetsVersionFile`: a JSON object
with string members (the `version` member populating the struct, unknown
members ignored), with nothing but whitespace allowed after it. -/
def unmarshalVersionFile (s : String) : Except String ReportAssetsVersionFile :=
  match skipSpace s.data with
  | [] => Except.error "unexpected end of JSON input"
  | c :: cs1 =>
    if c = Char.ofNat 123 then
      match skipSpace cs1 with
      | [] => Except.error "unexpected end of JSON input"
      | c2 :: cs2 =>
        if c2 = Char.ofNat 125 then
          if skipSpace cs2 = [] then Except.ok { version := "" }
          else Except.error "invalid character after top-level value"
        else
          match parseMembers (cs1.length + 1) (c2 :: cs2) with
          | none => Except.error "invalid character in object literal"
          | some (fields, rest) =>
            if skipSpace rest = [] then Except.ok { version := versionField fields }
            else Except.error "invalid character after top-level value"
    else Except.error "invalid character looking for beginning of value"

/-! ## Paths: Go `path/filepath` `Clean` and `Join` (slash-separated) -/

/-- Split a character sequence at every slash (the groups carry no slash). -/
def splitSlash : List Char → List (List Char)
  | [] => [[]]
  | c :: cs =>
    if c = '/' then [] :: splitSlash cs
    else
      match splitSlash cs with
      | [] => [[c]]
      | g :: gs => (c :: g) :: gs

/-- One step of `Clean`'s element processing: empty and `.` elements are
dropped, `..` pops the last kept element (unless there is none: at the root it
is dropped, otherwise it is kept), and any other element is kept. -/
def cleanPush (rooted : Bool) (stack : List (List Char)) (comp : List Char) :
    List (List Char) :=
  if comp = [] ∨ comp = ['.'] then stack
  else if comp = ['.', '.'] then
    match stack with
    | [] => if rooted then [] else [comp]
    | top :: rest => if top = ['.', '.'] then comp :: stack else rest
  else comp :: stack

/-- Join path elements back with slashes. -/
def joinComps : List (List Char) → List Char
  | [] => []
  | [g] => g
  | g :: g2 :: gs => g ++ '/' :: joinComps (g2 :: gs)

/-- Whether the path is rooted (starts with a slash). -/
def isRooted (cs : List Char) : Bool :=
  match cs with
  | c :: _ => c = '/'
  | [] => false

/-- Character-level core of Go's `filepath.Clean`. -/
def cleanChars (cs : List Char) : List Char :=
  let rooted := isRooted cs
  let out := (splitSlash cs).foldl (cleanPush rooted) []
  let body := joinComps out.reverse
  if rooted then '/' :: body
  else if body = [] then ['.']
  else body

/-- Go's `filepath.Clean` (Unix separator). -/
def filepathClean (s : String) : String :=
  if s = "" then "." else String.mk (cleanChars s.data)

/-- Go's `filepath.Join` on two elements: empty elements are dropped, the rest
are joined with a slash, and the result is cleaned. -/
def filepathJoin (a b : String) : String :=
  if a = "" ∧ b = "" then ""
  else if a = "" then filepathClean b
  else if b = "" then filepathClean a
  else filepathClean (a ++ "/" ++ b)

/-- Boolean list-prefix test. -/
def listStarts : List Char → List Char → Bool
  | [], _ => true
  | _ :: _, [] => false
  | a :: as, b :: bs => a == b && listStarts as bs

/-- Whether path `p` is the root itself or lies strictly under it. -/
def pathIsUnder (root p : String) : Bool :=
  p == root || listStarts (root.data ++ ['/']) p.data

/-! ## Filesystem state and the archive model -/

/-- Mutating filesystem operations, recorded in order. -/
inductive FSEvent where
  | mkdirAll (path : String)
  | createFile (path : String)
  | writeFile (path : String)
  | writeMarkerFile
deriving DecidableEq

/-- Filesystem state: the marker file (its raw content, `none` when absent,
plus an injected read fault), the extracted tree (directories and a
path-to-content file map), fault-injection sets for `os.Create`, `io.Copy`
and the marker `os.WriteFile`, the write-event log, and the status-sink
messages (`statushooks.SetStatus`, cosmetic). -/
structure FS where
  marker : Option String
  markerReadable : Bool
  dirs : List String
  files : List (String × String)
  failCreate : List String
  failCopy : List String
  failMarkerWrite : Bool
  events : List FSEvent
  status : List String
deriving DecidableEq

/-- Update (or insert) a file binding. -/
def putFile (files : List (String × String)) (p c : String) : List (String × String) :=
  match files with
  | [] => [(p, c)]
  | (q, d) :: rest => if q = p then (p, c) :: rest else (q, d) :: putFile rest p c

/-- Model of `os.MkdirAll`: idempotent directory creation. -/
def fsMkdirAll (fs : FS) (p : String) : FS :=
  { fs with dirs := if fs.dirs.contains p then fs.dirs else p :: fs.dirs,
            events := fs.events ++ [FSEvent.mkdirAll p] }

/-- Model of `os.Create`: create or truncate the file to empty. -/
def fsCreate (fs : FS) (p : String) : FS :=
  { fs with files := putFile fs.files p "",
            events := fs.events ++ [FSEvent.createFile p] }

/-- Model of a completed `io.Copy` into the file at `p`. -/
def fsWrite (fs : FS) (p c : String) : FS :=
  { fs with files := putFile fs.files p c,
            events := fs.events ++ [FSEvent.writeFile p] }

/-- Model of `statushooks.SetStatus` (an injected sink, not the filesystem). -/
def fsSetStatus (fs : FS) (s : String) : FS :=
  { fs with status := fs.status ++ [s] }

/-- Model of `os.WriteFile` on the marker path: truncating write. -/
def fsWriteMarker (fs : FS) (c : String) : FS :=
  { fs with marker := some c, markerReadable := true,
            events := fs.events ++ [FSEvent.writeMarkerFile] }

/-- Tar typeflag byte for a regular file (`tar.TypeReg`, the byte `'0'`). -/
def tarTypeReg : Nat := 48

/-- Tar typeflag byte for a directory (`tar.TypeDir`, the byte `'5'`). -/
def tarTypeDir : Nat := 53

/-- One item yielded by `tar.Reader.Next`: an entry (header plus payload), a
nil header (skipped by the loop), or a mid-stream parse error.  End of stream
(`io.EOF`) is the end of the list. -/
inductive TarItem where
  | entry (name : String) (typeflag : Nat) (payload : String)
  | nilHeader
  | corrupt (msg : String)
deriving DecidableEq

/-- Result of `gzip.NewReader` on the embedded archive: a malformed gzip
header, or the decoded tar item stream. -/
inductive GzipStream where
  | malformed (msg : String)
  | ok (items : List TarItem)
deriving DecidableEq

/-- Go's `%b` (binary) formatting of a natural number. -/
def natToBinStr (n : Nat) : String :=
  String.mk (Nat.toDigits 2 n)

/-- The installer's error for an entry that is neither a directory nor a
regular file, naming the offending entry (typo preserved from the source). -/
def unknownTypeMsg (typeflag : Nat) (name : String) : String :=
  "ExtractTarGz: uknown type: " ++ natToBinStr typeflag ++ " in " ++ name

/-- One iteration of `extractTarGz`'s loop body on an entry header: directory
entries get `os.MkdirAll`; regular files get a status message, `os.Create`
and an `io.Copy` of the payload (either of which can fail, the error being
returned with the filesystem as modified so far); any other typeflag is the
fatal unsupported-entry error. -/
def extractStep (fs : FS) (dest name : String) (typeflag : Nat) (payload : String) :
    Except String Unit × FS :=
  let target := filepathJoin dest name
  if typeflag = tarTypeDir then
    (Except.ok (), fsMkdirAll fs target)
  else if typeflag = tarTypeReg then
    let fs1 := fsSetStatus fs ("Extracting " ++ name ++ "…")
    if fs1.failCreate.contains target then
      (Except.error ("open " ++ target ++ ": create failed"), fs1)
    else
      let fs2 := fsCreate fs1 target
      if fs2.failCopy.contains target then
        (Except.error ("copy " ++ target ++ ": write failed"), fs2)
      else (Except.ok (), fsWrite fs2 target payload)
  else (Except.error (unknownTypeMsg typeflag name), fs)

/-- The `for` loop of `extractTarGz` over the tar item stream: `io.EOF` (the
end of the list) returns success, a stream error is returned as-is, a nil
header is skipped, and entries are processed in order until the first
failure. -/
def extractItems (dest : String) : FS → List TarItem → Except String Unit × FS
  | fs, [] => (Except.ok (), fs)
  | fs, TarItem.corrupt msg :: _ => (Except.error msg, fs)
  | fs, TarItem.nilHeader :: rest => extractItems dest fs rest
  | fs, TarItem.entry n t p :: rest =>
    match extractStep fs dest n t p with
    | (Except.ok _, fs1) => extractItems dest fs1 rest
    | (Except.error e, fs1) => (Except.error e, fs1)

/-- Model of `extractTarGz`: fail on a malformed gzip header, otherwise walk
the tar stream.  (The source's immediate `uncompressedStream.Close()` is a
no-op for reading: `gzip.Reader.Close` does not invalidate the stream.) -/
def extractTarGz (fs : FS) (gz : GzipStream) (dest : String) : Except String Unit × FS :=
  match gz with
  | GzipStream.malformed msg => (Except.error msg, fs)
  | GzipStream.ok items => extractItems dest fs items

/-! ## Marker load/store and `Ensure` -/

/-- Model of `loadReportAssetVersionFile`: a missing marker file yields the
empty marker without error; otherwise the file is read with the read error
discarded (`file, _ := os.ReadFile(...)`, leaving nil content on failure) and
the bytes are unmarshalled, a parse failure being returned as the error. -/
def loadReportAssetVersionFile (fs : FS) : Except String ReportAssetsVersionFile :=
  match fs.marker with
  | none => Except.ok { version := "" }
  | some content =>
    let file := if fs.markerReadable then content else ""
    match unmarshalVersionFile file with
    | Except.error e => Except.error e
    | Except.ok vf => Except.ok vf

/-- Model of `installedAsstesMatchAppVersion`: any loader error counts as a
mismatch, otherwise compare the recorded version with the running version. -/
def installedAsstesMatchAppVersion (fs : FS) (appVersion : String) : Bool :=
  match loadReportAssetVersionFile fs with
  | Except.error _ => false
  | Except.ok vf => vf.version == appVersion

/-- Model of `updateAssetVersionFile`: marshal the current version and write
it to the marker path (the write can fail). -/
def updateAssetVersionFile (fs : FS) (appVersion : String) : Except String Unit × FS :=
  let versionFileJSON := marshalVersionFile { version := appVersion }
  if fs.failMarkerWrite then
    (Except.error "could not write dashboard assets version file: write error", fs)
  else (Except.ok (), fsWriteMarker fs versionFileJSON)

/-- The world `Ensure` runs in: the filesystem, the running app version
(`app_specific.AppVersion.String()`), the embedded archive as opened by
`staticFS.Open` (`none` when the open fails), and the dashboard assets
directory returned by `filepaths.EnsureDashboardAssetsDir`. -/
structure World where
  fs : FS
  appVersion : String
  archive : Option GzipStream
  destPath : String
deriving DecidableEq

/-- Message wrapping of `sperr.WrapWithMessage`. -/
def wrapMsg (m e : String) : String := m ++ ": " ++ e

/-- Everything `Ensure` does after the version gate reports a mismatch:
ensure the assets directory exists, open the embedded archive, extract it,
and update the marker file, wrapping each stage's error. -/
def ensureSlowPath (w : World) : Except String Unit × FS :=
  let fs := fsMkdirAll w.fs w.destPath
  match w.archive with
  | none =>
    (Except.error (wrapMsg "could not open embedded dashboard assets archive"
        "open assets.tar.gz: file does not exist"), fs)
  | some gz =>
    match extractTarGz fs gz w.destPath with
    | (Except.error e, fs1) =>
      (Except.error (wrapMsg "could not extract embedded dashboard assets archive" e), fs1)
    | (Except.ok _, fs1) =>
      match updateAssetVersionFile fs1 w.appVersion with
      | (Except.error e, fs2) =>
        (Except.error (wrapMsg "could not update dashboard assets version file" e), fs2)
      | (Except.ok _, fs2) => (Except.ok (), fs2)

/-- Model of `Ensure`: when the installed assets already match the running
version, return success immediately with the filesystem untouched; otherwise
run the extraction pipeline. -/
def Ensure (w : World) : Except String Unit × FS :=
  if installedAsstesMatchAppVersion w.fs w.appVersion then (Except.ok (), w.fs)
  else ensureSlowPath w

/-! ## Concrete states used to evaluate the theorems -/

/-- A pristine filesystem: no marker, empty tree, no injected faults. -/
def fs0 : FS :=
  { marker := none, markerReadable := true, dirs := [], files := [],
    failCreate := [], failCopy := [], failMarkerWrite := false, events := [], status := [] }

/-- The synthetic archive of the extraction-completeness property: one
directory entry `a/` and one regular-file entry `a/b.txt` with payload
`hi`. -/
def sampleArchive : GzipStream :=
  GzipStream.ok [TarItem.entry "a/" tarTypeDir "", TarItem.entry "a/b.txt" tarTypeReg "hi"]

/-- Extraction of the synthetic archive into `/dest` from a pristine state. -/
def sampleExtract : Except String Unit × FS :=
  extractTarGz fs0 sampleArchive "/dest"

/-- World with an absent marker and an empty current version string. -/
def w0 : World :=
  { fs := fs0, appVersion := "",
    archive := some (GzipStream.ok [TarItem.entry "f" tarTypeReg "x"]), destPath := "/dest" }

/-- World with a marker recording version `9` while version `1.0.0` runs. -/
def w1 : World :=
  { fs := { fs0 with marker := some (marshalVersionFile { version := "9" }) },
    appVersion := "1.0.0", archive := some (GzipStream.ok []), destPath := "/dest" }

/-- World whose marker file exists but does not parse. -/
def w3 : World :=
  { fs := { fs0 with marker := some "garbage" },
    appVersion := "1.0.0", archive := some (GzipStream.ok []), destPath := "/dest" }

/-- World whose archive holds two regular files, the second of which is made
to fail during its `io.Copy`. -/
def w4 : World :=
  { fs := { fs0 with failCopy := ["/dest/f2"] }, appVersion := "1.0.0",
    archive := some (GzipStream.ok
      [TarItem.entry "f1" tarTypeReg "hi", TarItem.entry "f2" tarTypeReg "x"]),
    destPath := "/dest" }

/-- The leading items of `w4`'s archive that extract successfully. -/
def pre4 : List TarItem := [TarItem.entry "f1" tarTypeReg "hi"]

/-- The items of `w4`'s archive from the failing one on. -/
def post4 : List TarItem := [TarItem.entry "f2" tarTypeReg "x"]

/-- Filesystem state of `w4` after the successful prefix. -/
def fsMid4 : FS := (extractItems "/dest" (fsMkdirAll w4.fs "/dest") pre4).2

/-- Filesystem state of `w4` at the failure. -/
def fsEnd4 : FS := (extractItems "/dest" fsMid4 post4).2

/-- World whose archive holds one entry of typeflag `'2'` (a symlink). -/
def w5 : World :=
  { fs := fs0, appVersion := "1.0.0",
    archive := some (GzipStream.ok [TarItem.entry "link" 50 ""]), destPath := "/dest" }

/-- World with no marker and an empty (trivially extractable) archive. -/
def w8 : World :=
  { fs := fs0, appVersion := "1.0.0",
    archive := some (GzipStream.ok []), destPath := "/dest" }

/-- World whose marker file holds valid content but cannot be read. -/
def w10 : World :=
  { fs := { fs0 with marker := some (marshalVersionFile { version := "1.0.0" }),
                     markerReadable := false },
    appVersion := "1.0.0", archive := some (GzipStream.ok []), destPath := "/dest" }

/-! ## Round-trip of the marker encoding -/

theorem parseHexDigit_hexDigitChar : ∀ n : Nat, n < 16 → parseHexDigit (hexDigitChar n) = some n := by
  decide

theorem escapeChars_length (cs : List Char) : cs.length ≤ (escapeChars cs).length := by
  induction cs with
  | nil => simp [escapeChars]
  | cons c cs ih =>
    have h : 0 < (jsonEscapeChar c).length := by
      unfold jsonEscapeChar
      repeat' split
      all_goals simp
    simp only [escapeChars, List.length_append, List.length_cons]
    omega

theorem psbQuote (f : Nat) (cs : List Char) :
    parseStringBody (f + 1) ('"' :: cs) = some ([], cs) := rfl

theorem psbEsc (f : Nat) (cs : List Char) :
    parseStringBody (f + 1) ('\\' :: cs) =
      match escStep cs with
      | none => none
      | some (ch, cs2) => withChar ch (parseStringBody f cs2) := rfl

theorem psbRaw (f : Nat) (c : Char) (cs : List Char)
    (h1 : ¬c = '"') (h2 : ¬c = '\\') (h3 : ¬c.toNat < 32) :
    parseStringBody (f + 1) (c :: cs) = withChar c (parseStringBody f cs) := by
  conv_lhs => rw [show parseStringBody (f + 1) (c :: cs) =
    (if c = '"' then some ([], cs)
     else if c = '\\' then
       match escStep cs with
       | none => none
       | some (ch, cs2) => withChar ch (parseStringBody f cs2)
     else if c.toNat < 32 then none
     else withChar c (parseStringBody f cs)) from rfl]
  rw [if_neg h1, if_neg h2, if_neg h3]

theorem decodeU_basic (d1 d2 d3 d4 : Char) (cs : List Char) (a b c1 d : Nat)
    (e1 : parseHexDigit d1 = some a) (e2 : parseHexDigit d2 = some b)
    (e3 : parseHexDigit d3 = some c1) (e4 : parseHexDigit d4 = some d)
    (hlow : ((a * 16 + b) * 16 + c1) * 16 + d < 55296) :
    decodeU d1 d2 d3 d4 cs = some (Char.ofNat (((a * 16 + b) * 16 + c1) * 16 + d), cs) := by
  have hs1 : ¬(55296 ≤ ((a * 16 + b) * 16 + c1) * 16 + d ∧
      ((a * 16 + b) * 16 + c1) * 16 + d < 56320) := by omega
  have hs2 : ¬(56320 ≤ ((a * 16 + b) * 16 + c1) * 16 + d ∧
      ((a * 16 + b) * 16 + c1) * 16 + d < 57344) := by omega
  simp [decodeU, e1, e2, e3, e4, hs1, hs2]

theorem escStepU (d1 d2 d3 d4 : Char) (cs : List Char) :
    escStep ('u' :: d1 :: d2 :: d3 :: d4 :: cs) = decodeU d1 d2 d3 d4 cs := rfl

theorem parseStringBody_escape (cs : List Char) : ∀ (fuel : Nat) (rest : List Char),
    cs.length < fuel →
    parseStringBody fuel (escapeChars cs ++ '"' :: rest) = some (cs, rest) := by
  induction cs with
  | nil =>
    intro fuel rest h
    cases fuel with
    | zero => omega
    | succ f => simpa [escapeChars] using psbQuote f rest
  | cons c cs ih =>
    intro fuel rest h
    cases fuel with
    | zero => omega
    | succ f =>
      have hf : cs.length < f := by simp at h; omega
      have ihr := ih f rest hf
      by_cases h1 : c = '"'
      · subst h1
        have he : escapeChars ('"' :: cs) = '\\' :: '"' :: escapeChars cs := by
          simp [escapeChars, jsonEscapeChar]
        rw [he]
        simp only [List.cons_append]
        rw [psbEsc]
        rw [show escStep ('"' :: (escapeChars cs ++ '"' :: rest)) =
          some ('"', escapeChars cs ++ '"' :: rest) from rfl]
        simp [withChar, ihr]
      by_cases h2 : c = '\\'
      · subst h2
        have he : escapeChars ('\\' :: cs) = '\\' :: '\\' :: escapeChars cs := by
          simp [escapeChars, jsonEscapeChar]
        rw [he]
        simp only [List.cons_append]
        rw [psbEsc]
        rw [show escStep ('\\' :: (escapeChars cs ++ '"' :: rest)) =
          some ('\\', escapeChars cs ++ '"' :: rest) from rfl]
        simp [withChar, ihr]
      by_cases h3 : c = '\n'
      · subst h3
        have he : escapeChars ('\n' :: cs) = '\\' :: 'n' :: escapeChars cs := by
          simp [escapeChars, jsonEscapeChar]
        rw [he]
        simp only [List.cons_append]
        rw [psbEsc]
        rw [show escStep ('n' :: (escapeChars cs ++ '"' :: rest)) =
          some ('\n', escapeChars cs ++ '"' :: rest) from rfl]
        simp [withChar, ihr]
      by_cases h4 : c = '\r'
      · subst h4
        have he : escapeChars ('\r' :: cs) = '\\' :: 'r' :: escapeChars cs := by
          simp [escapeChars, jsonEscapeChar]
        rw [he]
        simp only [List.cons_append]
        rw [psbEsc]
        rw [show escStep ('r' :: (escapeChars cs ++ '"' :: rest)) =
          some ('\r', escapeChars cs ++ '"' :: rest) from rfl]
        simp [withChar, ihr]
      by_cases h5 : c = '\t'
      · subst h5
        have he : escapeChars ('\t' :: cs) = '\\' :: 't' :: escapeChars cs := by
          simp [escapeChars, jsonEscapeChar]
        rw [he]
        simp only [List.cons_append]
        rw [psbEsc]
        rw [show escStep ('t' :: (escapeChars cs ++ '"' :: rest)) =
          some ('\t', escapeChars cs ++ '"' :: rest) from rfl]
        simp [withChar, ihr]
      by_cases h6 : c = '<' ∨ c = '>' ∨ c = '&'
      · rcases h6 with h6 | h6 | h6 <;> subst h6
        · have he : escapeChars ('<' :: cs) =
              '\\' :: 'u' :: '0' :: '0' :: '3' :: 'c' :: escapeChars cs := by
            simp [escapeChars, jsonEscapeChar, hexDigitChar]
          rw [he]
          simp only [List.cons_append]
          rw [psbEsc, escStepU,
            decodeU_basic '0' '0' '3' 'c' _ 0 0 3 12 (by decide) (by decide) (by decide)
              (by decide) (by omega)]
          have hcc : Char.ofNat (((0 * 16 + 0) * 16 + 3) * 16 + 12) = '<' := by decide
          rw [hcc]
          simp [withChar, ihr]
        · have he : escapeChars ('>' :: cs) =
              '\\' :: 'u' :: '0' :: '0' :: '3' :: 'e' :: escapeChars cs := by
            simp [escapeChars, jsonEscapeChar, hexDigitChar]
          rw [he]
          simp only [List.cons_append]
          rw [psbEsc, escStepU,
            decodeU_basic '0' '0' '3' 'e' _ 0 0 3 14 (by decide) (by decide) (by decide)
              (by decide) (by omega)]
          have hcc : Char.ofNat (((0 * 16 + 0) * 16 + 3) * 16 + 14) = '>' := by decide
          rw [hcc]
          simp [withChar, ihr]
        · have he : escapeChars ('&' :: cs) =
              '\\' :: 'u' :: '0' :: '0' :: '2' :: '6' :: escapeChars cs := by
            simp [escapeChars, jsonEscapeChar, hexDigitChar]
          rw [he]
          simp only [List.cons_append]
          rw [psbEsc, escStepU,
            decodeU_basic '0' '0' '2' '6' _ 0 0 2 6 (by decide) (by decide) (by decide)
              (by decide) (by omega)]
          have hcc : Char.ofNat (((0 * 16 + 0) * 16 + 2) * 16 + 6) = '&' := by decide
          rw [hcc]
          simp [withChar, ihr]
      by_cases h7 : c.toNat < 32
      · have he : escapeChars (c :: cs) =
            '\\' :: 'u' :: '0' :: '0' :: hexDigitChar (c.toNat / 16) ::
              hexDigitChar (c.toNat % 16) :: escapeChars cs := by
          simp [escapeChars, jsonEscapeChar, h1, h2, h3, h4, h5, h6, h7]
        rw [he]
        simp only [List.cons_append]
        have e1 : parseHexDigit (hexDigitChar (c.toNat / 16)) = some (c.toNat / 16) :=
          parseHexDigit_hexDigitChar _ (by omega)
        have e2 : parseHexDigit (hexDigitChar (c.toNat % 16)) = some (c.toNat % 16) :=
          parseHexDigit_hexDigitChar _ (by omega)
        rw [psbEsc, escStepU,
          decodeU_basic '0' '0' _ _ _ 0 0 (c.toNat / 16) (c.toNat % 16) (by decide) (by decide)
            e1 e2 (by omega)]
        have hval : ((0 * 16 + 0) * 16 + c.toNat / 16) * 16 + c.toNat % 16 = c.toNat := by
          omega
        rw [hval, Char.ofNat_toNat]
        simp [withChar, ihr]
      by_cases h8 : c.toNat = 8232
      · have he : escapeChars (c :: cs) =
            '\\' :: 'u' :: '2' :: '0' :: '2' :: '8' :: escapeChars cs := by
          simp [escapeChars, jsonEscapeChar, h1, h2, h3, h4, h5, h6, h7, h8]
        rw [he]
        simp only [List.cons_append]
        rw [psbEsc, escStepU,
          decodeU_basic '2' '0' '2' '8' _ 2 0 2 8 (by decide) (by decide) (by decide)
            (by decide) (by omega)]
        have hc : Char.ofNat (((2 * 16 + 0) * 16 + 2) * 16 + 8) = c := by
          have : ((2 * 16 + 0) * 16 + 2) * 16 + 8 = c.toNat := by omega
          rw [this, Char.ofNat_toNat]
        rw [hc]
        simp [withChar, ihr]
      by_cases h9 : c.toNat = 8233
      · have he : escapeChars (c :: cs) =
            '\\' :: 'u' :: '2' :: '0' :: '2' :: '9' :: escapeChars cs := by
          simp [escapeChars, jsonEscapeChar, h1, h2, h3, h4, h5, h6, h7, h8, h9]
        rw [he]
        simp only [List.cons_append]
        rw [psbEsc, escStepU,
          decodeU_basic '2' '0' '2' '9' _ 2 0 2 9 (by decide) (by decide) (by decide)
            (by decide) (by omega)]
        have hc : Char.ofNat (((2 * 16 + 0) * 16 + 2) * 16 + 9) = c := by
          have : ((2 * 16 + 0) * 16 + 2) * 16 + 9 = c.toNat := by omega
          rw [this, Char.ofNat_toNat]
        rw [hc]
        simp [withChar, ihr]
      · have he : escapeChars (c :: cs) = c :: escapeChars cs := by
          simp [escapeChars, jsonEscapeChar, h1, h2, h3, h4, h5, h6, h7, h8, h9]
        rw [he]
        simp only [List.cons_append]
        rw [psbRaw f c _ h1 h2 h7, ihr]
        simp [withChar]

theorem marshal_data (v : String) :
    (marshalVersionFile { version := v }).data =
      Char.ofNat 123 :: '"' :: 'v' :: 'e' :: 'r' :: 's' :: 'i' :: 'o' :: 'n' :: '"' :: ':' ::
        '"' :: (escapeChars v.data ++ '"' :: Char.ofNat 125 :: []) := by
  have h1 : ("\x7b\"version\":" : String).data =
      [Char.ofNat 123, '"', 'v', 'e', 'r', 's', 'i', 'o', 'n', '"', ':'] := rfl
  have h2 : ("\x7d" : String).data = [Char.ofNat 125] := rfl
  simp [marshalVersionFile, encodeJSONString, h1, h2]

theorem parseMembers_versionShape (fuel : Nat) (vd : List Char) :
    parseMembers (fuel + 1)
      ('"' :: 'v' :: 'e' :: 'r' :: 's' :: 'i' :: 'o' :: 'n' :: '"' :: ':' :: '"' ::
        (escapeChars vd ++ '"' :: Char.ofNat 125 :: []))
      = some ([(['v', 'e', 'r', 's', 'i', 'o', 'n'], vd)], []) := by
  have hval : parseStringBody ((escapeChars vd ++ '"' :: Char.ofNat 125 :: []).length + 1)
      (escapeChars vd ++ '"' :: Char.ofNat 125 :: []) = some (vd, Char.ofNat 125 :: []) :=
    parseStringBody_escape vd _ _
      (by have := escapeChars_length vd
          simp only [List.length_append, List.length_cons, List.length_nil]
          omega)
  rw [show parseMembers (fuel + 1)
      ('"' :: 'v' :: 'e' :: 'r' :: 's' :: 'i' :: 'o' :: 'n' :: '"' :: ':' :: '"' ::
        (escapeChars vd ++ '"' :: Char.ofNat 125 :: [])) =
    (match parseStringBody ((escapeChars vd ++ '"' :: Char.ofNat 125 :: []).length + 1)
        (escapeChars vd ++ '"' :: Char.ofNat 125 :: []) with
      | none => none
      | some (val, cs5) =>
        match skipSpace cs5 with
        | [] => none
        | sep :: cs6 =>
          if sep = ',' then
            match parseMembers fuel cs6 with
            | none => none
            | some (fields, rest) =>
              some ((['v', 'e', 'r', 's', 'i', 'o', 'n'], val) :: fields, rest)
          else if sep = Char.ofNat 125 then
            some ([(['v', 'e', 'r', 's', 'i', 'o', 'n'], val)], cs6)
          else none) from rfl]
  rw [hval]
  rfl

theorem roundtrip_aux (v : String) :
    unmarshalVersionFile (marshalVersionFile { version := v }) = Except.ok { version := v } := by
  simp only [unmarshalVersionFile]
  rw [marshal_data]
  change ((match parseMembers
      (('"' :: 'v' :: 'e' :: 'r' :: 's' :: 'i' :: 'o' :: 'n' :: '"' :: ':' :: '"' ::
        (escapeChars v.data ++ '"' :: Char.ofNat 125 :: [])).length + 1)
      ('"' :: 'v' :: 'e' :: 'r' :: 's' :: 'i' :: 'o' :: 'n' :: '"' :: ':' :: '"' ::
        (escapeChars v.data ++ '"' :: Char.ofNat 125 :: [])) with
    | none => Except.error "invalid character in object literal"
    | some (fields, rest) =>
      if skipSpace rest = [] then Except.ok { version := versionField fields }
      else Except.error "invalid character after top-level value" :
    Except String ReportAssetsVersionFile) = Except.ok { version := v })
  rw [parseMembers_versionShape]
  rfl

/-! ## Path cleaning lemmas -/

theorem splitSlash_group (g : List Char) (rest : List Char) (hg : '/' ∉ g) :
    splitSlash (g ++ '/' :: rest) = g :: splitSlash rest := by
  induction g with
  | nil => simp [splitSlash]
  | cons c g ih =>
    have hc : ¬c = '/' := by simp at hg; tauto
    have hg2 : '/' ∉ g := by simp at hg; tauto
    simp only [List.cons_append, splitSlash, if_neg hc, List.append_eq, ih hg2]

theorem splitSlash_whole (g : List Char) (hg : '/' ∉ g) : splitSlash g = [g] := by
  induction g with
  | nil => simp [splitSlash]
  | cons c g ih =>
    have hc : ¬c = '/' := by simp at hg; tauto
    have hg2 : '/' ∉ g := by simp at hg; tauto
    simp only [splitSlash, if_neg hc, ih hg2]

theorem splitSlash_joinComps (gs : List (List Char)) (rest : List Char) (hne : gs ≠ [])
    (h : ∀ g ∈ gs, '/' ∉ g) :
    splitSlash (joinComps gs ++ '/' :: rest) = gs ++ splitSlash rest := by
  induction gs with
  | nil => exact absurd rfl hne
  | cons g gs ih =>
    cases gs with
    | nil =>
      simp only [joinComps]
      rw [splitSlash_group g rest (h g (by simp))]
      rfl
    | cons g2 gs2 =>
      simp only [joinComps]
      rw [List.append_assoc, List.cons_append]
      rw [splitSlash_group g _ (h g (by simp))]
      rw [ih (by simp) (fun x hx => h x (List.mem_cons_of_mem g hx))]
      rfl

theorem splitSlash_joinComps_whole (gs : List (List Char)) (hne : gs ≠ [])
    (h : ∀ g ∈ gs, '/' ∉ g) :
    splitSlash (joinComps gs) = gs := by
  induction gs with
  | nil => exact absurd rfl hne
  | cons g gs ih =>
    cases gs with
    | nil =>
      simp only [joinComps]
      exact splitSlash_whole g (h g (by simp))
    | cons g2 gs2 =>
      simp only [joinComps]
      rw [splitSlash_group g _ (h g (by simp))]
      rw [ih (by simp) (fun x hx => h x (List.mem_cons_of_mem g hx))]

theorem foldl_cleanPush_shift (gs : List (List Char)) (r : Bool)
    (h : ['.', '.'] ∉ gs) : ∀ st : List (List Char),
    List.foldl (cleanPush r) st gs = List.foldl (cleanPush r) [] gs ++ st := by
  induction gs with
  | nil => intro st; simp
  | cons g gs ih =>
    intro st
    have hg : g ≠ ['.', '.'] := by
      intro hgg; exact h (by simp [hgg])
    have hgs : ['.', '.'] ∉ gs := fun hx => h (List.mem_cons_of_mem g hx)
    by_cases hskip : g = [] ∨ g = ['.']
    · have hp : ∀ s : List (List Char), cleanPush r s g = s := by
        intro s; simp [cleanPush, hskip]
      simp only [List.foldl_cons, hp]
      exact ih hgs st
    · have hp : ∀ s : List (List Char), cleanPush r s g = g :: s := by
        intro s
        simp only [cleanPush, if_neg hskip, if_neg hg]

      simp only [List.foldl_cons, hp]
      rw [ih hgs (g :: st), ih hgs [g], List.append_assoc]
      rfl

theorem foldl_cleanPush_good (gs : List (List Char)) (r : Bool)
    (h : ∀ g ∈ gs, g ≠ [] ∧ g ≠ ['.'] ∧ g ≠ ['.', '.']) : ∀ st : List (List Char),
    List.foldl (cleanPush r) st gs = gs.reverse ++ st := by
  induction gs with
  | nil => intro st; simp
  | cons g gs ih =>
    intro st
    obtain ⟨h1, h2, h3⟩ := h g (by simp)
    have hp : cleanPush r st g = g :: st := by
      have : ¬(g = [] ∨ g = ['.']) := by tauto
      simp only [cleanPush, if_neg this, if_neg h3]
    simp only [List.foldl_cons, hp]
    rw [ih (fun x hx => h x (List.mem_cons_of_mem g hx)) (g :: st)]
    simp

theorem joinComps_append (gs1 gs2 : List (List Char)) (h1 : gs1 ≠ []) (h2 : gs2 ≠ []) :
    joinComps (gs1 ++ gs2) = joinComps gs1 ++ '/' :: joinComps gs2 := by
  induction gs1 with
  | nil => exact absurd rfl h1
  | cons g gs ih =>
    cases gs with
    | nil =>
      cases gs2 with
      | nil => exact absurd rfl h2
      | cons b bs => simp [joinComps]
    | cons g2 gs2x =>
      have h := ih (by simp)
      simp only [List.cons_append] at h ⊢
      simp only [joinComps]
      rw [h]
      simp [List.append_assoc]

theorem listStarts_append (xs ys : List Char) : listStarts xs (xs ++ ys) = true := by
  induction xs with
  | nil => simp [listStarts]
  | cons a xs ih => simp [listStarts, ih]

theorem mkCons_ne_empty (c : Char) (cs : List Char) : String.mk (c :: cs) ≠ "" := by
  intro h
  have h2 : (String.mk (c :: cs)).data = ("" : String).data := congrArg String.data h
  exact List.noConfusion h2

theorem cleanChars_rootedGood (dcomps : List (List Char)) (hne : dcomps ≠ [])
    (hgood3 : ∀ g ∈ dcomps, g ≠ [] ∧ g ≠ ['.'] ∧ g ≠ ['.', '.'])
    (hslash : ∀ g ∈ dcomps, '/' ∉ g) :
    cleanChars ('/' :: joinComps dcomps) = '/' :: joinComps dcomps := by
  simp only [cleanChars]
  rw [show isRooted ('/' :: joinComps dcomps) = true from rfl]
  rw [show splitSlash ('/' :: joinComps dcomps) =
    [] :: splitSlash (joinComps dcomps) from rfl]
  rw [splitSlash_joinComps_whole dcomps hne hslash]
  rw [List.foldl_cons]
  rw [show cleanPush true [] [] = [] from rfl]
  rw [foldl_cleanPush_good dcomps true hgood3 []]
  simp

theorem cleanChars_rootedJoin (dcomps : List (List Char)) (nd : List Char)
    (hne : dcomps ≠ [])
    (hgood3 : ∀ g ∈ dcomps, g ≠ [] ∧ g ≠ ['.'] ∧ g ≠ ['.', '.'])
    (hslash : ∀ g ∈ dcomps, '/' ∉ g)
    (hname : ['.', '.'] ∉ splitSlash nd) :
    cleanChars ('/' :: (joinComps dcomps ++ '/' :: nd)) =
      '/' :: joinComps (dcomps ++ (List.foldl (cleanPush true) [] (splitSlash nd)).reverse) := by
  simp only [cleanChars]
  rw [show isRooted ('/' :: (joinComps dcomps ++ '/' :: nd)) = true from rfl]
  rw [show splitSlash ('/' :: (joinComps dcomps ++ '/' :: nd)) =
    [] :: splitSlash (joinComps dcomps ++ '/' :: nd) from rfl]
  rw [splitSlash_joinComps dcomps nd hne hslash]
  rw [List.foldl_cons, show cleanPush true [] [] = [] from rfl]
  rw [List.foldl_append]
  rw [foldl_cleanPush_good dcomps true hgood3 []]
  rw [List.append_nil]
  rw [foldl_cleanPush_shift (splitSlash nd) true hname dcomps.reverse]
  simp [List.reverse_append]

theorem containment_aux (dcomps : List (List Char)) (hne : dcomps ≠ [])
    (hgood : ∀ g ∈ dcomps, g ≠ [] ∧ g ≠ ['.'] ∧ g ≠ ['.', '.'] ∧ '/' ∉ g)
    (name : String) (hname : ['.', '.'] ∉ splitSlash name.data) :
    pathIsUnder (String.mk ('/' :: joinComps dcomps))
      (filepathJoin (String.mk ('/' :: joinComps dcomps)) name) = true := by
  have hgood3 : ∀ g ∈ dcomps, g ≠ [] ∧ g ≠ ['.'] ∧ g ≠ ['.', '.'] :=
    fun g hg => ⟨(hgood g hg).1, (hgood g hg).2.1, (hgood g hg).2.2.1⟩
  have hslash : ∀ g ∈ dcomps, '/' ∉ g := fun g hg => (hgood g hg).2.2.2
  have hdne : String.mk ('/' :: joinComps dcomps) ≠ "" := mkCons_ne_empty _ _
  by_cases hn : name = ""
  · subst hn
    simp only [filepathJoin]
    rw [if_neg (by simp [hdne]), if_neg hdne, if_pos trivial]
    simp only [filepathClean, if_neg hdne]
    rw [cleanChars_rootedGood dcomps hne hgood3 hslash]
    simp [pathIsUnder]
  · have hsd : (String.mk ('/' :: joinComps dcomps) ++ "/" ++ name).data =
        '/' :: (joinComps dcomps ++ '/' :: name.data) := by
      simp only [String.data_append]
      simp [List.append_assoc]
    have hsne : String.mk ('/' :: joinComps dcomps) ++ "/" ++ name ≠ "" := by
      intro h
      have h2 := congrArg String.data h
      rw [hsd] at h2
      exact List.noConfusion h2
    simp only [filepathJoin]
    rw [if_neg (by simp [hdne]), if_neg hdne, if_neg hn]
    simp only [filepathClean, if_neg hsne]
    rw [hsd]
    rw [cleanChars_rootedJoin dcomps name.data hne hgood3 hslash hname]
    by_cases hno : (List.foldl (cleanPush true) [] (splitSlash name.data)).reverse = []
    · rw [hno, List.append_nil]
      simp [pathIsUnder]
    · rw [joinComps_append dcomps _ hne hno]
      simp only [pathIsUnder]
      rw [show '/' :: (joinComps dcomps ++ '/' ::
          joinComps (List.foldl (cleanPush true) [] (splitSlash name.data)).reverse) =
        ('/' :: joinComps dcomps ++ ['/']) ++
          joinComps (List.foldl (cleanPush true) [] (splitSlash name.data)).reverse by simp]
      rw [listStarts_append]
      simp

/-! ## Extraction lemmas -/

theorem extractItems_append_ok (dest : String) (l1 l2 : List TarItem) :
    ∀ (fs fs1 : FS), extractItems dest fs l1 = (Except.ok (), fs1) →
    extractItems dest fs (l1 ++ l2) = extractItems dest fs1 l2 := by
  induction l1 with
  | nil =>
    intro fs fs1 h
    simp only [extractItems, Prod.mk.injEq] at h
    rw [List.nil_append, h.2]
  | cons item l1 ih =>
    intro fs fs1 h
    cases item with
    | corrupt msg => simp [extractItems] at h
    | nilHeader =>
      simp only [extractItems] at h ⊢
      exact ih fs fs1 h
    | entry n t p =>
      simp only [List.cons_append, extractItems] at h ⊢
      cases hstep : extractStep fs dest n t p with
      | mk r fsx =>
        rw [hstep] at h
        cases r with
        | ok u =>
          simp only [] at h ⊢
          exact ih fsx fs1 h
        | error e => simp at h

theorem extractItems_append_err (dest : String) (l1 l2 : List TarItem) :
    ∀ (fs fs1 : FS) (e : String), extractItems dest fs l1 = (Except.error e, fs1) →
    extractItems dest fs (l1 ++ l2) = (Except.error e, fs1) := by
  induction l1 with
  | nil => intro fs fs1 e h; simp [extractItems] at h
  | cons item l1 ih =>
    intro fs fs1 e h
    cases item with
    | corrupt msg =>
      simp only [extractItems, Prod.mk.injEq, Except.error.injEq] at h
      simp [extractItems, h.1, h.2]
    | nilHeader =>
      simp only [extractItems] at h ⊢
      exact ih fs fs1 e h
    | entry n t p =>
      simp only [List.cons_append, extractItems] at h ⊢
      cases hstep : extractStep fs dest n t p with
      | mk r fsx =>
        rw [hstep] at h
        cases r with
        | ok u =>
          simp only [] at h ⊢
          exact ih fsx fs1 e h
        | error e2 =>
          simp only [Prod.mk.injEq, Except.error.injEq] at h
          simp [h.1, h.2]

theorem extractStep_marker (fs : FS) (dest n : String) (t : Nat) (p : String) :
    (extractStep fs dest n t p).2.marker = fs.marker := by
  simp only [extractStep]
  repeat' split
  all_goals simp [fsMkdirAll, fsSetStatus, fsCreate, fsWrite]

theorem extractItems_marker (dest : String) : ∀ (l : List TarItem) (fs : FS),
    (extractItems dest fs l).2.marker = fs.marker := by
  intro l
  induction l with
  | nil => intro fs; simp [extractItems]
  | cons item l ih =>
    intro fs
    cases item with
    | corrupt msg => simp [extractItems]
    | nilHeader => simp [extractItems, ih]
    | entry n t p =>
      simp only [extractItems]
      cases hstep : extractStep fs dest n t p with
      | mk r fsx =>
        have hm : fsx.marker = fs.marker := by
          have := extractStep_marker fs dest n t p
          rw [hstep] at this
          exact this
        cases r with
        | ok u => simp only []; rw [ih fsx, hm]
        | error e => simp only []; exact hm

theorem putFile_lookup_isSome (files : List (String × String)) (p c q : String)
    (h : (files.lookup q).isSome = true) : ((putFile files p c).lookup q).isSome = true := by
  induction files with
  | nil => simp [List.lookup] at h
  | cons kv rest ih =>
    obtain ⟨a, b⟩ := kv
    by_cases hap : a = p
    · subst hap
      simp only [putFile, if_pos rfl]
      by_cases hq : (q == a) = true
      · simp [List.lookup, hq]
      · simp only [Bool.not_eq_true] at hq
        simp only [List.lookup, hq] at h ⊢
        exact h
    · simp only [putFile, if_neg hap]
      by_cases hq : (q == a) = true
      · simp [List.lookup, hq]
      · simp only [Bool.not_eq_true] at hq
        simp only [List.lookup, hq] at h ⊢
        exact ih h

theorem extractStep_files_keys (fs : FS) (dest n : String) (t : Nat) (p q : String)
    (h : (fs.files.lookup q).isSome = true) :
    ((extractStep fs dest n t p).2.files.lookup q).isSome = true := by
  simp only [extractStep]
  repeat' split
  all_goals
    simp only [fsMkdirAll, fsSetStatus, fsCreate, fsWrite]
  all_goals
    first
      | exact h
      | exact putFile_lookup_isSome _ _ _ _ h
      | exact putFile_lookup_isSome _ _ _ _ (putFile_lookup_isSome _ _ _ _ h)

theorem extractItems_files_keys (dest : String) : ∀ (l : List TarItem) (fs : FS) (q : String),
    (fs.files.lookup q).isSome = true →
    ((extractItems dest fs l).2.files.lookup q).isSome = true := by
  intro l
  induction l with
  | nil => intro fs q h; simpa [extractItems] using h
  | cons item l ih =>
    intro fs q h
    cases item with
    | corrupt msg => simpa [extractItems] using h
    | nilHeader => simp only [extractItems]; exact ih fs q h
    | entry n t p =>
      simp only [extractItems]
      cases hstep : extractStep fs dest n t p with
      | mk r fsx =>
        have hk : (fsx.files.lookup q).isSome = true := by
          have := extractStep_files_keys fs dest n t p q h
          rw [hstep] at this
          exact this
        cases r with
        | ok u => simp only []; exact ih fsx q hk
        | error e => simp only []; exact hk

theorem extractStep_events_le (fs : FS) (dest n : String) (t : Nat) (p : String) :
    fs.events.length ≤ (extractStep fs dest n t p).2.events.length := by
  simp only [extractStep]
  repeat' split
  all_goals simp [fsMkdirAll, fsSetStatus, fsCreate, fsWrite]

theorem extractItems_events_le (dest : String) : ∀ (l : List TarItem) (fs : FS),
    fs.events.length ≤ (extractItems dest fs l).2.events.length := by
  intro l
  induction l with
  | nil => intro fs; simp [extractItems]
  | cons item l ih =>
    intro fs
    cases item with
    | corrupt msg => simp [extractItems]
    | nilHeader => simp only [extractItems]; exact ih fs
    | entry n t p =>
      simp only [extractItems]
      cases hstep : extractStep fs dest n t p with
      | mk r fsx =>
        have hs : fs.events.length ≤ fsx.events.length := by
          have := extractStep_events_le fs dest n t p
          rw [hstep] at this
          exact this
        cases r with
        | ok u => simp only []; exact le_trans hs (ih fsx)
        | error e => simp only []; exact hs

theorem updateAssetVersionFile_events_le (fs : FS) (v : String) :
    fs.events.length ≤ (updateAssetVersionFile fs v).2.events.length := by
  simp only [updateAssetVersionFile]
  split
  · exact le_refl _
  · simp [fsWriteMarker]

theorem ensureSlowPath_events_lt (w : World) :
    w.fs.events.length < (ensureSlowPath w).2.events.length := by
  have hmk : (fsMkdirAll w.fs w.destPath).events.length = w.fs.events.length + 1 := by
    simp [fsMkdirAll]
  simp only [ensureSlowPath]
  cases w.archive with
  | none => simp [hmk]
  | some gz =>
    cases gz with
    | malformed msg => simp only [extractTarGz]; simp [hmk]
    | ok items =>
      simp only [extractTarGz]
      cases hext : extractItems w.destPath (fsMkdirAll w.fs w.destPath) items with
      | mk r fs1 =>
        have h1 : (fsMkdirAll w.fs w.destPath).events.length ≤ fs1.events.length := by
          have := extractItems_events_le w.destPath items (fsMkdirAll w.fs w.destPath)
          rw [hext] at this
          exact this
        cases r with
        | error e => simp only []; omega
        | ok u =>
          simp only []
          cases hupd : updateAssetVersionFile fs1 w.appVersion with
          | mk r2 fs2 =>
            have h2 : fs1.events.length ≤ fs2.events.length := by
              have := updateAssetVersionFile_events_le fs1 w.appVersion
              rw [hupd] at this
              exact this
            cases r2 with
            | error e => simp only []; omega
            | ok u2 => simp only []; omega

theorem ensureSlowPath_ne_fast (w : World) : ensureSlowPath w ≠ (Except.ok (), w.fs) := by
  intro h
  have := congrArg (fun r : Except String Unit × FS => r.2.events.length) h
  simp only [] at this
  have hlt := ensureSlowPath_events_lt w
  omega

/-! ## Version gate lemmas -/

theorem load_none (fs : FS) (hm : fs.marker = none) :
    loadReportAssetVersionFile fs = Except.ok { version := "" } := by
  simp [loadReportAssetVersionFile, hm]

theorem load_some (fs : FS) (c : String) (hm : fs.marker = some c) :
    loadReportAssetVersionFile fs =
      unmarshalVersionFile (if fs.markerReadable then c else "") := by
  simp only [loadReportAssetVersionFile, hm]
  cases hx : unmarshalVersionFile (if fs.markerReadable then c else "") <;> simp [hx]

theorem load_writeMarker (fs : FS) (content : String) :
    loadReportAssetVersionFile (fsWriteMarker fs content) = unmarshalVersionFile content := by
  have hm : (fsWriteMarker fs content).marker = some content := rfl
  rw [load_some _ content hm]
  rfl

theorem gate_of_load_error (fs : FS) (v e : String)
    (h : loadReportAssetVersionFile fs = Except.error e) :
    installedAsstesMatchAppVersion fs v = false := by
  simp [installedAsstesMatchAppVersion, h]

theorem gate_of_load_ok (fs : FS) (v : String) (m : ReportAssetsVersionFile)
    (h : loadReportAssetVersionFile fs = Except.ok m) :
    installedAsstesMatchAppVersion fs v = (m.version == v) := by
  simp [installedAsstesMatchAppVersion, h]

theorem Ensure_fast (w : World)
    (h : installedAsstesMatchAppVersion w.fs w.appVersion = true) :
    Ensure w = (Except.ok (), w.fs) := by
  simp [Ensure, h]

theorem Ensure_slow (w : World)
    (h : installedAsstesMatchAppVersion w.fs w.appVersion = false) :
    Ensure w = ensureSlowPath w := by
  simp [Ensure, h]

theorem ensureSlowPath_extract_error (w : World) (items : List TarItem) (fs2 : FS) (e : String)
    (harch : w.archive = some (GzipStream.ok items))
    (hext : extractItems w.destPath (fsMkdirAll w.fs w.destPath) items = (Except.error e, fs2)) :
    ensureSlowPath w =
      (Except.error (wrapMsg "could not extract embedded dashboard assets archive" e), fs2) := by
  simp only [ensureSlowPath, harch, extractTarGz]
  rw [hext]

/-! ## Claim theorems -/

/-- C1 (amended: the current version string is assumed nonempty, since with an
absent marker and an empty current version the empty loaded marker version
compares equal and the code takes the fast path): `Ensure` runs the
extraction pipeline exactly when the marker file is absent, fails to load
(corrupt or unreadable), or records a version other than the current one; and
when the loaded marker matches the current version, `Ensure` returns success
immediately with the filesystem untouched. -/
theorem ensure_version_gate (w : World) (hv : w.appVersion ≠ "") :
    (Ensure w = ensureSlowPath w ↔
      (w.fs.marker = none ∨ (∃ e, loadReportAssetVersionFile w.fs = Except.error e) ∨
        (∃ m, loadReportAssetVersionFile w.fs = Except.ok m ∧ m.version ≠ w.appVersion)))
    ∧ (∀ m, loadReportAssetVersionFile w.fs = Except.ok m → m.version = w.appVersion →
        Ensure w = (Except.ok (), w.fs)) := by
  cases hload : loadReportAssetVersionFile w.fs with
  | error e =>
    have hg := gate_of_load_error w.fs w.appVersion e hload
    refine ⟨⟨fun _ => Or.inr (Or.inl ⟨e, rfl⟩), fun _ => Ensure_slow w hg⟩, ?_⟩
    intro m hm
    exact Except.noConfusion hm
  | ok m =>
    by_cases hmv : m.version = w.appVersion
    · have hg : installedAsstesMatchAppVersion w.fs w.appVersion = true := by
        rw [gate_of_load_ok w.fs w.appVersion m hload]
        simp [hmv]
      have hfast := Ensure_fast w hg
      refine ⟨⟨fun hsl => ?_, fun hdisj => ?_⟩, fun m2 hm2 hv2 => hfast⟩
      · rw [hfast] at hsl
        exact absurd hsl.symm (ensureSlowPath_ne_fast w)
      · rcases hdisj with hnone | ⟨e, he⟩ | ⟨m2, hm2, hne⟩
        · have h0 := load_none w.fs hnone
          rw [hload] at h0
          have hm0 : m = { version := "" } := by
            injection h0
          rw [hm0] at hmv
          exact absurd hmv.symm hv
        · exact Except.noConfusion he
        · have : m = m2 := by injection hm2
          rw [← this] at hne
          exact absurd hmv hne
    · have hg : installedAsstesMatchAppVersion w.fs w.appVersion = false := by
        rw [gate_of_load_ok w.fs w.appVersion m hload]
        simp [hmv]
      refine ⟨⟨fun _ => Or.inr (Or.inr ⟨m, rfl, hmv⟩), fun _ => Ensure_slow w hg⟩, ?_⟩
      intro m2 hm2 hv2
      have : m = m2 := by injection hm2
      rw [← this] at hv2
      exact absurd hv2 hmv

/-- C1 witness: a marker recording version `9` while `1.0.0` runs. -/
theorem ensure_version_gate_witness :
    (Ensure w1 = ensureSlowPath w1 ↔
      (w1.fs.marker = none ∨ (∃ e, loadReportAssetVersionFile w1.fs = Except.error e) ∨
        (∃ m, loadReportAssetVersionFile w1.fs = Except.ok m ∧ m.version ≠ w1.appVersion)))
    ∧ (∀ m, loadReportAssetVersionFile w1.fs = Except.ok m → m.version = w1.appVersion →
        Ensure w1 = (Except.ok (), w1.fs)) :=
  ensure_version_gate w1 (by decide)

/-- C1 counterexample: with an absent marker and the empty current version,
the loader returns the empty marker, the gate reports a match, and `Ensure`
returns success without extracting anything (the archive's file is never
written), although the claim requires extraction whenever the marker is
absent. -/
theorem ensure_version_gate_cex :
    w0.fs.marker = none ∧ w0.appVersion = "" ∧
    installedAsstesMatchAppVersion w0.fs w0.appVersion = true ∧
    Ensure w0 = (Except.ok (), w0.fs) ∧ (Ensure w0).2.files = [] ∧
    (ensureSlowPath w0).2.files ≠ (Ensure w0).2.files :=
  ⟨rfl, rfl, rfl, rfl, rfl, by decide⟩

/-- C2: on the synthetic archive holding the directory entry `a/` and the
regular-file entry `a/b.txt` with payload `hi`, `extractTarGz` terminates
successfully at end of stream, and the destination root contains the
directory `a` and the file `a/b.txt` with contents `hi`. -/
theorem extract_sample_archive :
    sampleExtract.1 = Except.ok () ∧
    sampleExtract.2.dirs.contains "/dest/a" = true ∧
    sampleExtract.2.files.lookup "/dest/a/b.txt" = some "hi" :=
  ⟨rfl, rfl, rfl⟩

/-- C3: a marker file that exists and is readable but does not parse makes
the loader return the parse error, the version gate report a mismatch, and
`Ensure` proceed into the extraction pipeline instead of failing outright. -/
theorem ensure_corrupt_marker_recovers (w : World) (c e : String)
    (hm : w.fs.marker = some c) (hr : w.fs.markerReadable = true)
    (hbad : unmarshalVersionFile c = Except.error e) :
    loadReportAssetVersionFile w.fs = Except.error e ∧
    installedAsstesMatchAppVersion w.fs w.appVersion = false ∧
    Ensure w = ensureSlowPath w := by
  have hl : loadReportAssetVersionFile w.fs = Except.error e := by
    rw [load_some w.fs c hm, hr]
    simpa using hbad
  have hg := gate_of_load_error w.fs w.appVersion e hl
  exact ⟨hl, hg, Ensure_slow w hg⟩

/-- C3 witness: the unparsable marker content `garbage`. -/
theorem ensure_corrupt_marker_recovers_witness :
    loadReportAssetVersionFile w3.fs =
      Except.error "invalid character looking for beginning of value" ∧
    installedAsstesMatchAppVersion w3.fs w3.appVersion = false ∧
    Ensure w3 = ensureSlowPath w3 :=
  ensure_corrupt_marker_recovers w3 "garbage"
    "invalid character looking for beginning of value" rfl rfl rfl

/-- C4: when extraction fails partway (the prefix `pre` of the archive
extracts successfully and the remainder fails), `Ensure` returns the wrapped
extraction error together with the filesystem exactly as it stood at the
failure — every file present after the successful prefix is still present,
nothing is rolled back — and the marker file is untouched. -/
theorem ensure_extract_error_keeps_files (w : World) (pre post : List TarItem)
    (fs1 fs2 : FS) (e : String)
    (harch : w.archive = some (GzipStream.ok (pre ++ post)))
    (hgate : installedAsstesMatchAppVersion w.fs w.appVersion = false)
    (hpre : extractItems w.destPath (fsMkdirAll w.fs w.destPath) pre = (Except.ok (), fs1))
    (hpost : extractItems w.destPath fs1 post = (Except.error e, fs2)) :
    Ensure w =
      (Except.error (wrapMsg "could not extract embedded dashboard assets archive" e), fs2) ∧
    fs2.marker = w.fs.marker ∧
    (∀ q, (fs1.files.lookup q).isSome = true → (fs2.files.lookup q).isSome = true) := by
  have hext : extractItems w.destPath (fsMkdirAll w.fs w.destPath) (pre ++ post) =
      (Except.error e, fs2) := by
    rw [extractItems_append_ok w.destPath pre post _ fs1 hpre, hpost]
  refine ⟨?_, ?_, ?_⟩
  · rw [Ensure_slow w hgate]
    exact ensureSlowPath_extract_error w (pre ++ post) fs2 e harch hext
  · have h1 : fs2.marker = fs1.marker := by
      have := extractItems_marker w.destPath post fs1
      rw [hpost] at this
      exact this
    have h2 : fs1.marker = (fsMkdirAll w.fs w.destPath).marker := by
      have := extractItems_marker w.destPath pre (fsMkdirAll w.fs w.destPath)
      rw [hpre] at this
      exact this
    have h3 : (fsMkdirAll w.fs w.destPath).marker = w.fs.marker := rfl
    rw [h1, h2, h3]
  · intro q hq
    have := extractItems_files_keys w.destPath post fs1 q hq
    rw [hpost] at this
    exact this

/-- C4 witness: two regular files, the second failing during its copy; the
first file and its contents survive and the marker stays absent. -/
theorem ensure_extract_error_keeps_files_witness :
    Ensure w4 =
      (Except.error (wrapMsg "could not extract embedded dashboard assets archive"
        "copy /dest/f2: write failed"), fsEnd4) ∧
    fsEnd4.marker = w4.fs.marker ∧
    (∀ q, (fsMid4.files.lookup q).isSome = true → (fsEnd4.files.lookup q).isSome = true) :=
  ensure_extract_error_keeps_files w4 pre4 post4 fsMid4 fsEnd4
    "copy /dest/f2: write failed" rfl rfl rfl rfl

/-- C5: an archive entry whose typeflag is neither `tar.TypeDir` nor
`tar.TypeReg` aborts extraction with the explicit unsupported-entry error
naming the offending entry, and `Ensure` returns that error (wrapped) with
the filesystem as of the entries before it — the entry is not skipped. -/
theorem ensure_unknown_entry_rejected (w : World) (pre rest : List TarItem)
    (n : String) (t : Nat) (p : String) (fs1 : FS)
    (harch : w.archive = some (GzipStream.ok (pre ++ TarItem.entry n t p :: rest)))
    (hgate : installedAsstesMatchAppVersion w.fs w.appVersion = false)
    (hpre : extractItems w.destPath (fsMkdirAll w.fs w.destPath) pre = (Except.ok (), fs1))
    (hdir : t ≠ tarTypeDir) (hreg : t ≠ tarTypeReg) :
    Ensure w =
      (Except.error (wrapMsg "could not extract embedded dashboard assets archive"
        (unknownTypeMsg t n)), fs1) := by
  have hstep : extractStep fs1 w.destPath n t p = (Except.error (unknownTypeMsg t n), fs1) := by
    simp [extractStep, hdir, hreg]
  have hitem : extractItems w.destPath fs1 (TarItem.entry n t p :: rest) =
      (Except.error (unknownTypeMsg t n), fs1) := by
    simp only [extractItems]
    rw [hstep]
  have hext : extractItems w.destPath (fsMkdirAll w.fs w.destPath)
      (pre ++ TarItem.entry n t p :: rest) = (Except.error (unknownTypeMsg t n), fs1) := by
    rw [extractItems_append_ok w.destPath pre _ _ fs1 hpre, hitem]
  rw [Ensure_slow w hgate]
  exact ensureSlowPath_extract_error w _ fs1 _ harch hext

/-- C5 witness: a lone entry of typeflag `'2'` (symlink). -/
theorem ensure_unknown_entry_rejected_witness :
    Ensure w5 =
      (Except.error (wrapMsg "could not extract embedded dashboard assets archive"
        (unknownTypeMsg 50 "link")), fsMkdirAll w5.fs w5.destPath) :=
  ensure_unknown_entry_rejected w5 [] [] "link" 50 "" (fsMkdirAll w5.fs w5.destPath)
    rfl rfl rfl (by decide) (by decide)

/-- C6 (amended: forcing a reinstall additionally assumes the current version
string is nonempty, since with an empty current version the empty marker
returned for a missing file compares equal and no reinstall happens):
reading the marker when the file is missing returns the empty marker, whose
version is the empty string, without error; and with a nonempty current
version the gate then reports a mismatch, forcing reinstall. -/
theorem load_missing_marker (fs : FS) (v : String) (hm : fs.marker = none) (hv : v ≠ "") :
    loadReportAssetVersionFile fs = Except.ok { version := "" } ∧
    installedAsstesMatchAppVersion fs v = false := by
  have hl := load_none fs hm
  refine ⟨hl, ?_⟩
  rw [gate_of_load_ok fs v { version := "" } hl]
  simp
  exact fun h => hv h.symm

/-- C6 witness: a pristine filesystem with no marker, current version `1.0.0`. -/
theorem load_missing_marker_witness :
    loadReportAssetVersionFile fs0 = Except.ok { version := "" } ∧
    installedAsstesMatchAppVersion fs0 "1.0.0" = false :=
  load_missing_marker fs0 "1.0.0" rfl (by decide)

/-- C6 counterexample: with the empty current version, the absent marker does
not force a reinstall — the gate reports a match. -/
theorem load_missing_marker_cex :
    fs0.marker = none ∧ installedAsstesMatchAppVersion fs0 "" = true :=
  ⟨rfl, rfl⟩

/-- C7: marker round-trip — marshalling `{version := v}` and unmarshalling
the bytes yields `{version := v}` again, for every version string `v`. -/
theorem marker_roundtrip (v : String) :
    unmarshalVersionFile (marshalVersionFile { version := v }) =
      Except.ok { version := v } :=
  roundtrip_aux v

theorem ensureSlowPath_ok_shape (w : World) (fs1 : FS)
    (h : ensureSlowPath w = (Except.ok (), fs1)) :
    ∃ fsx : FS, fs1 = fsWriteMarker fsx (marshalVersionFile { version := w.appVersion }) := by
  simp only [ensureSlowPath] at h
  cases harch : w.archive with
  | none => rw [harch] at h; simp at h
  | some gz =>
    rw [harch] at h
    simp only [] at h
    cases gz with
    | malformed msg => simp [extractTarGz] at h
    | ok items =>
      simp only [extractTarGz] at h
      cases hext : extractItems w.destPath (fsMkdirAll w.fs w.destPath) items with
      | mk r fsx =>
        rw [hext] at h
        cases r with
        | error e => simp at h
        | ok u =>
          simp only [] at h
          by_cases hfw : fsx.failMarkerWrite = true
          · simp [updateAssetVersionFile, hfw] at h
          · have hfw2 : fsx.failMarkerWrite = false := by simpa using hfw
            simp only [updateAssetVersionFile, hfw2, Bool.false_eq_true, if_false] at h
            exact ⟨fsx, (congrArg Prod.snd h).symm⟩

/-- C8: after a successful `Ensure` run, the version gate accepts the
resulting filesystem, so a second run with the same current version returns
success immediately with the filesystem byte-for-byte unchanged (zero
writes: the event log does not grow). -/
theorem ensure_idempotent (w : World) (fs1 : FS) (h : Ensure w = (Except.ok (), fs1)) :
    installedAsstesMatchAppVersion fs1 w.appVersion = true ∧
    Ensure { w with fs := fs1 } = (Except.ok (), fs1) := by
  by_cases hg : installedAsstesMatchAppVersion w.fs w.appVersion = true
  · rw [Ensure_fast w hg] at h
    have hfs : w.fs = fs1 := congrArg Prod.snd h
    rw [← hfs]
    exact ⟨hg, Ensure_fast { w with fs := w.fs } hg⟩
  · have hg2 : installedAsstesMatchAppVersion w.fs w.appVersion = false := by
      simpa using hg
    rw [Ensure_slow w hg2] at h
    obtain ⟨fsx, hfs1⟩ := ensureSlowPath_ok_shape w fs1 h
    have hgate1 : installedAsstesMatchAppVersion fs1 w.appVersion = true := by
      rw [hfs1]
      rw [gate_of_load_ok _ w.appVersion { version := w.appVersion }
        (by rw [load_writeMarker]; exact roundtrip_aux w.appVersion)]
      simp
    exact ⟨hgate1, Ensure_fast { w with fs := fs1 } hgate1⟩

/-- C8 witness: a first run installing from an empty archive; the second run
returns the same state. -/
theorem ensure_idempotent_witness :
    installedAsstesMatchAppVersion (Ensure w8).2 w8.appVersion = true ∧
    Ensure { w8 with fs := (Ensure w8).2 } = (Except.ok (), (Ensure w8).2) :=
  ensure_idempotent w8 (Ensure w8).2 rfl

/-- C9 (amended: containment holds for entry names none of whose
slash-separated components is `..`; a `..` component escapes the root, as
the counterexample shows): for a destination root `/c1/.../ck` made of plain
components, the path at which an entry is created — `filepathJoin` of the
root and the entry's name — is the root itself or lies strictly under it. -/
theorem extract_target_containment (dcomps : List (List Char)) (hne : dcomps ≠ [])
    (hgood : ∀ g ∈ dcomps, g ≠ [] ∧ g ≠ ['.'] ∧ g ≠ ['.', '.'] ∧ '/' ∉ g)
    (name : String) (hname : ['.', '.'] ∉ splitSlash name.data) :
    pathIsUnder (String.mk ('/' :: joinComps dcomps))
      (filepathJoin (String.mk ('/' :: joinComps dcomps)) name) = true :=
  containment_aux dcomps hne hgood name hname

/-- C9 witness: root `/d/x`, entry name `a/b`. -/
theorem extract_target_containment_witness :
    pathIsUnder (String.mk ('/' :: joinComps [['d'], ['x']]))
      (filepathJoin (String.mk ('/' :: joinComps [['d'], ['x']])) "a/b") = true :=
  extract_target_containment [['d'], ['x']] (by decide)
    (by decide) "a/b" (by decide)

/-- C9 counterexample: the entry name `../evil` resolves outside the
destination root `/dest`, and a regular-file entry with that name is written
at `/evil`, outside the root. -/
theorem extract_target_containment_cex :
    filepathJoin "/dest" "../evil" = "/evil" ∧
    pathIsUnder "/dest" (filepathJoin "/dest" "../evil") = false ∧
    ((extractStep fs0 "/dest" "../evil" tarTypeReg "x").2.files.lookup "/evil").isSome = true :=
  ⟨rfl, rfl, rfl⟩

/-- C10: when the marker file exists but reading it fails, the discarded
read error leaves nil content for the parser, so the loader fails exactly as
on an empty (corrupt) marker, the gate reports a mismatch, and `Ensure`
proceeds to reinstall — no distinct failure mode at the `Ensure` interface. -/
theorem unreadable_marker_like_corrupt (w : World) (c : String)
    (hm : w.fs.marker = some c) (hr : w.fs.markerReadable = false) :
    loadReportAssetVersionFile w.fs = unmarshalVersionFile "" ∧
    loadReportAssetVersionFile w.fs = Except.error "unexpected end of JSON input" ∧
    installedAsstesMatchAppVersion w.fs w.appVersion = false ∧
    Ensure w = ensureSlowPath w := by
  have hl : loadReportAssetVersionFile w.fs = unmarshalVersionFile "" := by
    rw [load_some w.fs c hm, hr]
    simp
  have hl2 : loadReportAssetVersionFile w.fs =
      Except.error "unexpected end of JSON input" := by
    rw [hl]
    rfl
  have hg := gate_of_load_error w.fs w.appVersion _ hl2
  exact ⟨hl, hl2, hg, Ensure_slow w hg⟩

/-- C10 witness: a marker holding perfectly valid content that cannot be
read still forces reinstall. -/
theorem unreadable_marker_like_corrupt_witness :
    loadReportAssetVersionFile w10.fs = unmarshalVersionFile "" ∧
    loadReportAssetVersionFile w10.fs = Except.error "unexpected end of JSON input" ∧
    installedAsstesMatchAppVersion w10.fs w10.appVersion = false ∧
    Ensure w10 = ensureSlowPath w10 :=
  unreadable_marker_like_corrupt w10 (marshalVersionFile { version := "1.0.0" }) rfl rfl
